import Mathlib

/-!
Verification of the core bookkeeping of a backend-agnostic GPU API wrapper
(`src/lib.rs`): the `MapContext` mapped-range tracker, buffer slicing and
mapping, command-buffer submission, pass finalization, resource destructors,
and swap-chain frame acquisition.

Machine integers (`BufferAddress = u64`) are modelled as `Nat`; `BufferSize`
(`NonZeroU64`) values are modelled as `Nat` carried inside `Option`, with
`bufferSizeNew` mirroring `NonZeroU64::new` (zero becomes `none`).  A Rust
`panic!`/failed `assert!` is a fatal programmer error; fallible operations
therefore return `Option`, with `none` standing for the fatal abort.
-/

/-- Rust `Range<BufferAddress>`; the field `stop` stands for Rust's `end`
(a Lean keyword). -/
structure BufRange where
  start : Nat
  stop : Nat
deriving DecidableEq, Repr

/-- `NonZeroU64::new`: `some n` when `n ≠ 0`, otherwise `none`. -/
def bufferSizeNew (n : Nat) : Option Nat :=
  if n = 0 then none else some n

/-- The per-buffer mapped-range tracker (`struct MapContext` in `src/lib.rs`):
total buffer size, the outstanding mapping range, and the open sub-ranges. -/
structure MapContext where
  total_size : Nat
  initial_range : BufRange
  sub_ranges : List BufRange
deriving DecidableEq, Repr

/-- `MapContext::new(total_size)`. -/
def MapContext.new (total_size : Nat) : MapContext :=
  { total_size := total_size, initial_range := ⟨0, 0⟩, sub_ranges := [] }

/-- `MapContext::reset`: clears the outstanding range; the `assert!` that no
sub-range is still open becomes `none` on failure (fatal abort, the poisoned
state is unreachable). -/
def MapContext.reset (self : MapContext) : Option MapContext :=
  if self.sub_ranges.isEmpty then
    some { self with initial_range := ⟨0, 0⟩ }
  else
    none

/-- The `end` computation at the head of `MapContext::add`. -/
def MapContext.addEnd (self : MapContext) (offset : Nat) (size : Option Nat) : Nat :=
  match size with
  | some s => offset + s
  | none => self.initial_range.stop

/-- The `end` computation at the head of `MapContext::remove` (textually the
same `match` as in `add`). -/
def MapContext.removeEnd (self : MapContext) (offset : Nat) (size : Option Nat) : Nat :=
  match size with
  | some s => offset + s
  | none => self.initial_range.stop

/-- `MapContext::add(offset, size)`: checks the bounds `assert!` and the
per-sub-range intersection `assert!`, then pushes `offset..end` and returns
`end`.  `none` models the fatal `assert!` failure. -/
def MapContext.add (self : MapContext) (offset : Nat) (size : Option Nat) :
    Option (Nat × MapContext) :=
  let e := self.addEnd offset size
  if self.initial_range.start ≤ offset ∧ e ≤ self.initial_range.stop then
    if self.sub_ranges.all (fun sub => decide (e ≤ sub.start ∨ sub.stop ≤ offset)) then
      some (e, { self with sub_ranges := self.sub_ranges ++ [⟨offset, e⟩] })
    else
      none
  else
    none

/-- Rust `Iterator::position(p)`: index of the first element satisfying `p`. -/
def position (p : α → Bool) : List α → Option Nat
  | [] => none
  | a :: l => if p a then some 0 else (position p l).map (· + 1)

/-- Rust `Vec::swap_remove(i)`: overwrites slot `i` with the last element and
pops the last element. -/
def swapRemove (l : List α) (i : Nat) : List α :=
  match l.getLast? with
  | none => []
  | some last => (l.set i last).dropLast

/-- `MapContext::remove(offset, size)`: recomputes `end`, locates the open
sub-range equal to `offset..end` and `swap_remove`s it; `none` models the
fatal `expect` failure when no exact match exists. -/
def MapContext.remove (self : MapContext) (offset : Nat) (size : Option Nat) :
    Option MapContext :=
  let e := self.removeEnd offset size
  match position (fun r => decide (r = ⟨offset, e⟩)) self.sub_ranges with
  | some index => some { self with sub_ranges := swapRemove self.sub_ranges index }
  | none => none

/-- One call in a sequence of `MapContext::add` / `MapContext::remove` calls. -/
inductive MapOp where
  | add (offset : Nat) (size : Option Nat)
  | remove (offset : Nat) (size : Option Nat)
deriving DecidableEq, Repr

/-- Apply one `add`/`remove` call; `none` is the fatal abort. -/
def applyOp (mc : MapContext) : MapOp → Option MapContext
  | .add offset size => (mc.add offset size).map (·.2)
  | .remove offset size => mc.remove offset size

/-- Run a sequence of `add`/`remove` calls; a fatal call aborts the run. -/
def runOps (mc : MapContext) : List MapOp → Option MapContext
  | [] => some mc
  | op :: ops =>
    match applyOp mc op with
    | some mc1 => runOps mc1 ops
    | none => none

/-- Membership of an address in a half-open range `[start, stop)`. -/
def memR (x : Nat) (r : BufRange) : Prop :=
  r.start ≤ x ∧ x < r.stop

/-- Two ranges are disjoint: no address lies in both. -/
def rDisjoint (a b : BufRange) : Prop :=
  ∀ x, memR x a → memR x b → False

/-- The tracker invariant: open sub-ranges are pairwise disjoint and every
open sub-range lies within the outstanding mapping range. -/
def subRangeInv (mc : MapContext) : Prop :=
  mc.sub_ranges.Pairwise rDisjoint ∧
  ∀ r ∈ mc.sub_ranges, ∀ x, memR x r → memR x mc.initial_range

/-- `Device::create_buffer`'s local bookkeeping: a fresh `MapContext` whose
outstanding range is `0..size` when `mapped_at_creation` is set. -/
def createBufferMapContext (size : Nat) (mapped_at_creation : Bool) : MapContext :=
  let mc := MapContext.new size
  if mapped_at_creation then { mc with initial_range := ⟨0, size⟩ } else mc

/-! ### Helper lemmas about `position`, `swapRemove` and the tracker invariant -/

theorem position_lt_length {p : α → Bool} :
    ∀ {l : List α} {i : Nat}, position p l = some i → i < l.length := by
  intro l
  induction l with
  | nil => intro i h; simp [position] at h
  | cons a t ih =>
    intro i h
    simp only [position] at h
    split at h
    · cases h; simp
    · cases ht : position p t with
      | none => rw [ht] at h; simp at h
      | some j =>
        rw [ht] at h
        simp only [Option.map_some', Option.some.injEq] at h
        subst h
        have := ih ht
        simp only [List.length_cons]
        omega

theorem position_isSome_iff {p : α → Bool} :
    ∀ {l : List α}, (position p l).isSome ↔ ∃ a ∈ l, p a = true := by
  intro l
  induction l with
  | nil => simp [position]
  | cons a t ih =>
    simp only [position]
    split
    · simp_all
    · rename_i hpa
      cases ht : position p t with
      | none => simp [ht] at ih; simp [hpa]; exact ih
      | some j => simp [ht] at ih; simp [hpa, ih]

theorem position_eraseIdx {a : α} [DecidableEq α] :
    ∀ {l : List α} {i : Nat},
      position (fun r => decide (r = a)) l = some i → l.eraseIdx i = l.erase a := by
  intro l
  induction l with
  | nil => intro i h; simp [position] at h
  | cons b t ih =>
    intro i h
    simp only [position] at h
    by_cases hb : b = a
    · rw [if_pos (by simp [hb])] at h
      cases h
      subst hb
      simp [List.eraseIdx]
    · rw [if_neg (by simp [hb])] at h
      cases ht : position (fun r => decide (r = a)) t with
      | none => rw [ht] at h; simp at h
      | some j =>
        rw [ht] at h
        simp only [Option.map_some', Option.some.injEq] at h
        subst h
        rw [List.eraseIdx_cons_succ, ih ht, List.erase_cons_tail (by simp [hb])]

theorem dropLast_cons_ne (a : α) {l : List α} (h : l ≠ []) :
    (a :: l).dropLast = a :: l.dropLast := by
  cases l with
  | nil => exact absurd rfl h
  | cons b t => rfl

theorem swapRemove_perm :
    ∀ (l : List α) (i : Nat), i < l.length → (swapRemove l i).Perm (l.eraseIdx i) := by
  intro l
  induction l with
  | nil => intro i h; simp at h
  | cons a t ih =>
    intro i hi
    cases t with
    | nil =>
      have : i = 0 := by simpa using hi
      subst this
      simp [swapRemove]
    | cons b t2 =>
      have hne : (b :: t2) ≠ [] := by simp
      have hlast : (a :: b :: t2).getLast? = some ((b :: t2).getLast hne) := by
        rw [List.getLast?_cons_cons, List.getLast?_eq_getLast]
      cases i with
      | zero =>
        unfold swapRemove
        rw [hlast]
        show ((((b :: t2).getLast hne) :: b :: t2).dropLast).Perm ((a :: b :: t2).eraseIdx 0)
        rw [dropLast_cons_ne _ hne, List.eraseIdx_cons_zero]
        have hsplit : (b :: t2).dropLast ++ [(b :: t2).getLast hne] = b :: t2 :=
          List.dropLast_append_getLast hne
        have hperm : (((b :: t2).getLast hne) :: (b :: t2).dropLast).Perm
            ((b :: t2).dropLast ++ [(b :: t2).getLast hne]) :=
          (List.perm_append_singleton _ _).symm
        rw [hsplit] at hperm
        exact hperm
      | succ j =>
        have hj : j < (b :: t2).length := by
          simp only [List.length_cons] at hi ⊢
          omega
        have hsetne : (b :: t2).set j ((b :: t2).getLast hne) ≠ [] := by
          cases j <;> simp [List.set]
        unfold swapRemove
        rw [hlast]
        show ((a :: b :: t2).set (j + 1) ((b :: t2).getLast hne)).dropLast.Perm
          ((a :: b :: t2).eraseIdx (j + 1))
        rw [List.set_cons_succ, dropLast_cons_ne _ hsetne, List.eraseIdx_cons_succ]
        refine List.Perm.cons a ?_
        have := ih j hj
        unfold swapRemove at this
        rw [List.getLast?_eq_getLast (b :: t2) hne] at this
        exact this

theorem rDisjoint_symm : Symmetric rDisjoint :=
  fun _ _ h x hxb hxa => h x hxa hxb

theorem MapContext.add_facts {mc mc' : MapContext} {offset e : Nat} {size : Option Nat}
    (h : mc.add offset size = some (e, mc')) :
    e = mc.addEnd offset size ∧
    mc.initial_range.start ≤ offset ∧ e ≤ mc.initial_range.stop ∧
    (∀ sub ∈ mc.sub_ranges, e ≤ sub.start ∨ sub.stop ≤ offset) ∧
    mc' = { mc with sub_ranges := mc.sub_ranges ++ [⟨offset, e⟩] } := by
  simp only [MapContext.add] at h
  split at h
  · split at h
    · rename_i hb hall
      simp only [Option.some.injEq, Prod.mk.injEq] at h
      obtain ⟨he, hmc⟩ := h
      subst he
      refine ⟨rfl, hb.1, hb.2, ?_, hmc.symm⟩
      intro sub hsub
      have := List.all_eq_true.mp hall sub hsub
      simpa using this
    · exact Option.noConfusion h
  · exact Option.noConfusion h

theorem MapContext.add_inv {mc mc' : MapContext} {offset e : Nat} {size : Option Nat}
    (h : mc.add offset size = some (e, mc')) (hinv : subRangeInv mc) : subRangeInv mc' := by
  obtain ⟨-, hlo, hhi, hall, hmc⟩ := MapContext.add_facts h
  subst hmc
  constructor
  · rw [List.pairwise_append]
    refine ⟨hinv.1, List.pairwise_singleton _ _, ?_⟩
    intro a ha b hb
    simp only [List.mem_singleton] at hb
    subst hb
    rcases hall a ha with hd | hd <;>
      exact fun x hxa hxb => by
        simp only [memR] at hxa hxb
        omega
  · intro r hr x hx
    rcases List.mem_append.mp hr with h1 | h2
    · exact hinv.2 r h1 x hx
    · simp only [List.mem_singleton] at h2
      subst h2
      simp only [memR] at hx ⊢
      omega

theorem MapContext.remove_facts {mc mc' : MapContext} {offset : Nat} {size : Option Nat}
    (h : mc.remove offset size = some mc') :
    mc'.total_size = mc.total_size ∧ mc'.initial_range = mc.initial_range ∧
    mc'.sub_ranges.Perm
      (mc.sub_ranges.erase ⟨offset, mc.removeEnd offset size⟩) := by
  simp only [MapContext.remove] at h
  cases hp : position (fun r => decide (r = ⟨offset, mc.removeEnd offset size⟩))
      mc.sub_ranges with
  | none => rw [hp] at h; exact Option.noConfusion h
  | some i =>
    rw [hp] at h
    simp only [Option.some.injEq] at h
    subst h
    refine ⟨rfl, rfl, ?_⟩
    have hlt := position_lt_length hp
    have hperm := swapRemove_perm mc.sub_ranges i hlt
    rw [position_eraseIdx hp] at hperm
    exact hperm

theorem MapContext.remove_inv {mc mc' : MapContext} {offset : Nat} {size : Option Nat}
    (h : mc.remove offset size = some mc') (hinv : subRangeInv mc) : subRangeInv mc' := by
  obtain ⟨-, hir, hperm⟩ := MapContext.remove_facts h
  have hsub : List.Sublist (mc.sub_ranges.erase ⟨offset, mc.removeEnd offset size⟩)
      mc.sub_ranges :=
    List.erase_sublist _ _
  constructor
  · exact (List.Perm.pairwise_iff (fun hab => rDisjoint_symm hab) hperm).mpr
      (hinv.1.sublist hsub)
  · intro r hr x hx
    rw [hir]
    exact hinv.2 r (hsub.subset (hperm.mem_iff.mp hr)) x hx

theorem applyOp_inv {mc mc' : MapContext} {op : MapOp}
    (h : applyOp mc op = some mc') (hinv : subRangeInv mc) : subRangeInv mc' := by
  cases op with
  | add offset size =>
    simp only [applyOp, Option.map_eq_some'] at h
    obtain ⟨⟨e, mc1⟩, hadd, hmc⟩ := h
    subst hmc
    exact MapContext.add_inv hadd hinv
  | remove offset size =>
    exact MapContext.remove_inv h hinv

theorem runOps_inv :
    ∀ {ops : List MapOp} {mc mc' : MapContext},
      runOps mc ops = some mc' → subRangeInv mc → subRangeInv mc' := by
  intro ops
  induction ops with
  | nil =>
    intro mc mc' h hinv
    simp only [runOps, Option.some.injEq] at h
    subst h
    exact hinv
  | cons op rest ih =>
    intro mc mc' h hinv
    simp only [runOps] at h
    cases hop : applyOp mc op with
    | none => rw [hop] at h; exact Option.noConfusion h
    | some mc1 =>
      rw [hop] at h
      exact ih h (applyOp_inv hop hinv)

theorem createBufferMapContext_inv (size : Nat) (mapped_at_creation : Bool) :
    subRangeInv (createBufferMapContext size mapped_at_creation) := by
  cases mapped_at_creation <;>
    exact ⟨List.Pairwise.nil, by intro r hr; simp [createBufferMapContext, MapContext.new] at hr⟩

/-! ### Claim C1 -/

/-- C1: for every sequence of `add`/`remove` calls on a `MapContext` created by
`Device::create_buffer` (each call either failing fatally — aborting the run —
or succeeding), every reachable state satisfies: the open sub-ranges are
pairwise disjoint and every open sub-range lies within the outstanding mapping
range `initial_range`. -/
theorem mapContext_add_remove_invariant (size : Nat) (mapped_at_creation : Bool)
    (ops : List MapOp) (mc' : MapContext)
    (h : runOps (createBufferMapContext size mapped_at_creation) ops = some mc') :
    subRangeInv mc' :=
  runOps_inv h (createBufferMapContext_inv size mapped_at_creation)

/-- Witness for C1: buffer of size 8 mapped at creation, `add(0, Some 4)` then
`add(4, Some 4)` then `remove(0, Some 4)` runs without a fatal error and the
resulting state satisfies the invariant. -/
theorem mapContext_add_remove_invariant_witness :
    subRangeInv { total_size := 8, initial_range := ⟨0, 8⟩, sub_ranges := [⟨4, 8⟩] } :=
  mapContext_add_remove_invariant 8 true
    [MapOp.add 0 (some 4), MapOp.add 4 (some 4), MapOp.remove 0 (some 4)]
    { total_size := 8, initial_range := ⟨0, 8⟩, sub_ranges := [⟨4, 8⟩] }
    (by decide)

/-! ### Backend calls and `Buffer::unmap` -/

/-- The Dispatch Contract operations forwarded by the code under scrutiny,
recorded as an explicit trace. -/
inductive BackendCall where
  | buffer_unmap
  | buffer_map_async (range : BufRange)
  | buffer_get_mapped_range (range : BufRange)
  | command_encoder_end_render_pass
  | command_encoder_end_compute_pass
  | texture_drop
  | texture_view_drop
  | swap_chain_present
  | command_buffer_drop
  | set_index_buffer (offset : Nat) (size : Option Nat)
  | set_vertex_buffer (slot : Nat) (offset : Nat) (size : Option Nat)
deriving DecidableEq, Repr

/-- `Buffer::unmap`: `self.map_context.lock().reset()` followed by
`Context::buffer_unmap`.  A fatal `reset` aborts before the backend call, so
the emitted trace is empty in that case. -/
def Buffer.unmap (mc : MapContext) : Option MapContext × List BackendCall :=
  match mc.reset with
  | some mc1 => (some mc1, [BackendCall.buffer_unmap])
  | none => (none, [])

/-! ### Claim C2 -/

/-- C2: `Buffer::unmap` (via `MapContext::reset`) succeeds exactly when no
sub-range is open, and the backend `buffer_unmap` call is forwarded exactly
when that local check passes — on failure the abort happens before the
Dispatch Contract is reached, so no backend call is emitted. -/
theorem buffer_unmap_spec (mc : MapContext) :
    ((Buffer.unmap mc).1.isSome ↔ mc.sub_ranges = []) ∧
    (BackendCall.buffer_unmap ∈ (Buffer.unmap mc).2 ↔ mc.sub_ranges = []) ∧
    ((Buffer.unmap mc).1 = none → (Buffer.unmap mc).2 = []) := by
  simp only [Buffer.unmap, MapContext.reset]
  by_cases h : mc.sub_ranges.isEmpty
  · rw [if_pos h]
    simp [List.isEmpty_iff.mp h]
  · rw [if_neg h]
    simp only [List.isEmpty_iff] at h
    simp [h]

/-! ### Claim C3 -/

/-- C3: `MapContext::remove(offset, size)` recomputes `end` exactly as `add`
does; it succeeds iff some open sub-range is structurally equal to
`offset..end`, and on success the open sub-ranges are exactly the old ones
with one occurrence of `offset..end` removed (as a multiset —
`Vec::swap_remove` reorders), the other fields unchanged. -/
theorem mapContext_remove_spec (mc : MapContext) (offset : Nat) (size : Option Nat) :
    mc.removeEnd offset size = mc.addEnd offset size ∧
    ((mc.remove offset size).isSome ↔
      (⟨offset, mc.removeEnd offset size⟩ : BufRange) ∈ mc.sub_ranges) ∧
    (∀ mc', mc.remove offset size = some mc' →
      mc'.total_size = mc.total_size ∧ mc'.initial_range = mc.initial_range ∧
      mc'.sub_ranges.Perm
        (mc.sub_ranges.erase ⟨offset, mc.removeEnd offset size⟩)) := by
  refine ⟨rfl, ?_, fun mc' h => MapContext.remove_facts h⟩
  have hsame : (mc.remove offset size).isSome =
      (position (fun r => decide (r = ⟨offset, mc.removeEnd offset size⟩))
        mc.sub_ranges).isSome := by
    simp only [MapContext.remove]
    cases position (fun r => decide (r = ⟨offset, mc.removeEnd offset size⟩))
        mc.sub_ranges <;> rfl
  rw [hsame, position_isSome_iff]
  constructor
  · rintro ⟨a, ha, hpa⟩
    simp only [decide_eq_true_eq] at hpa
    exact hpa ▸ ha
  · intro hmem
    exact ⟨_, hmem, by simp⟩

/-- Witness for C3: on the tracker state `{0..8 open within 0..8}`,
`remove(0, Some 8)` succeeds and empties the open set. -/
theorem mapContext_remove_spec_witness :
    ({ total_size := 8, initial_range := ⟨0, 8⟩,
       sub_ranges := [] } : MapContext).total_size = 8 ∧
    ({ total_size := 8, initial_range := ⟨0, 8⟩,
       sub_ranges := [] } : MapContext).initial_range = ⟨0, 8⟩ ∧
    (({ total_size := 8, initial_range := ⟨0, 8⟩,
        sub_ranges := [] } : MapContext).sub_ranges).Perm
      (([⟨0, 8⟩] : List BufRange).erase ⟨0, 8⟩) :=
  (mapContext_remove_spec
      { total_size := 8, initial_range := ⟨0, 8⟩, sub_ranges := [⟨0, 8⟩] }
      0 (some 8)).2.2
    { total_size := 8, initial_range := ⟨0, 8⟩, sub_ranges := [] }
    (by decide)

/-! ### Buffer slicing, `get_mapped_range`, and the mapped-at-creation round trip -/

/-- A `std::ops::RangeBounds` endpoint. -/
inductive RBound where
  | included (b : Nat)
  | excluded (b : Nat)
  | unbounded
deriving DecidableEq, Repr

/-- `range_to_offset_size(bounds)`: normalizes any range expression to
`(offset, optional size)`; a computed size of zero yields `None` because
`BufferSize::new(0)` is `None`. -/
def range_to_offset_size (startBound stopBound : RBound) : Nat × Option Nat :=
  let offset := match startBound with
    | .included b => b
    | .excluded b => b + 1
    | .unbounded => 0
  let size := match stopBound with
    | .included b => bufferSizeNew (b + 1 - offset)
    | .excluded b => bufferSizeNew (b - offset)
    | .unbounded => none
  (offset, size)

/-- `Buffer::slice(bounds)`: the `(offset, size)` stored in the returned
`BufferSlice` (the buffer reference itself carries no slicing data). -/
def Buffer.slice (startBound stopBound : RBound) : Nat × Option Nat :=
  range_to_offset_size startBound stopBound

/-- `BufferSlice::get_mapped_range`: registers the sub-range via
`MapContext::add` and forwards `offset..end` to the backend
`buffer_get_mapped_range`; the returned `BufferView` remembers the slice's
`(offset, size)` for its destructor. -/
def BufferSlice.get_mapped_range (mc : MapContext) (offset : Nat) (size : Option Nat) :
    Option (MapContext × BackendCall) :=
  (mc.add offset size).map fun res =>
    (res.2, BackendCall.buffer_get_mapped_range ⟨offset, res.1⟩)

/-- `impl Drop for BufferView`: returns the slice's range to the tracker via
`MapContext::remove(offset, size)`. -/
def BufferView.drop (mc : MapContext) (offset : Nat) (size : Option Nat) :
    Option MapContext :=
  mc.remove offset size

/-- The C4 scenario: create a buffer of size `size` with
`mapped_at_creation = true`, take `slice(offset..offset+n)`, call
`get_mapped_range`, drop the returned view, then `unmap`.  `none` means some
step aborted fatally. -/
def roundTrip (size offset n : Nat) : Option MapContext :=
  let mc := createBufferMapContext size true
  let s := Buffer.slice (RBound.included offset) (RBound.excluded (offset + n))
  match BufferSlice.get_mapped_range mc s.1 s.2 with
  | none => none
  | some (mc1, _) =>
    match BufferView.drop mc1 s.1 s.2 with
    | none => none
    | some mc2 => (Buffer.unmap mc2).1

/-! ### Claim C4 -/

/-- C4: for every buffer created with `mapped_at_creation = true` of size
`size` and every `offset`, `n` with `n ≤ size - offset`, the sequence
`slice(offset..offset+n).get_mapped_range()`, then dropping the `BufferView`,
then `unmap()`, completes with no fatal error at any step. -/
theorem mapped_at_creation_round_trip (size offset n : Nat) (h : n ≤ size - offset) :
    (roundTrip size offset n).isSome := by
  have hnorm : Buffer.slice (RBound.included offset) (RBound.excluded (offset + n)) =
      (offset, bufferSizeNew n) := by
    simp [Buffer.slice, range_to_offset_size]
  rcases Nat.eq_zero_or_pos n with hn | hn
  · subst hn
    simp only [roundTrip, hnorm, bufferSizeNew, if_pos rfl]
    simp [BufferSlice.get_mapped_range, MapContext.add, MapContext.addEnd,
      createBufferMapContext, MapContext.new, BufferView.drop, MapContext.remove,
      MapContext.removeEnd, position, swapRemove, Buffer.unmap, MapContext.reset]
  · have hle : offset + n ≤ size := by omega
    have hsize : bufferSizeNew n = some n := by
      simp [bufferSizeNew, Nat.pos_iff_ne_zero.mp hn]
    simp only [roundTrip, hnorm, hsize]
    simp [BufferSlice.get_mapped_range, MapContext.add, MapContext.addEnd,
      createBufferMapContext, MapContext.new, BufferView.drop, MapContext.remove,
      MapContext.removeEnd, position, swapRemove, Buffer.unmap, MapContext.reset, hle]

/-- Witness for C4: size 256, offset 32, length 64. -/
theorem mapped_at_creation_round_trip_witness :
    (64 : Nat) ≤ 256 - 32 ∧ (roundTrip 256 32 64).isSome :=
  ⟨by decide, mapped_at_creation_round_trip 256 32 64 (by decide)⟩

/-! ### `BufferSlice::map_async` -/

/-- The `end` computed inside `BufferSlice::map_async`: `offset + size`, or
`total_size` when the slice has no size. -/
def mapAsyncEnd (mc : MapContext) (offset : Nat) (size : Option Nat) : Nat :=
  match size with
  | some s => offset + s
  | none => mc.total_size

/-- `BufferSlice::map_async`: `assert_eq!(mc.initial_range, 0..0)` (fatal when
the buffer is already mapped), then records `offset..end` as the outstanding
range and forwards the same range to the backend `buffer_map_async`. -/
def BufferSlice.map_async (mc : MapContext) (offset : Nat) (size : Option Nat) :
    Option (MapContext × BackendCall) :=
  if mc.initial_range = ⟨0, 0⟩ then
    let e := mapAsyncEnd mc offset size
    some ({ mc with initial_range := ⟨offset, e⟩ },
      BackendCall.buffer_map_async ⟨offset, e⟩)
  else
    none

/-! ### Claim C5 -/

/-- C5: at most one map request may be outstanding: `map_async` aborts fatally
whenever the outstanding mapping range is non-empty (indeed whenever it is not
literally `0..0`); on success the outstanding range becomes `offset..end`
with `end = offset + size` (or `total_size` when the slice has no size) and
exactly that range is forwarded to the backend `buffer_map_async`. -/
theorem map_async_spec (mc : MapContext) (offset : Nat) (size : Option Nat) :
    (mc.initial_range.start < mc.initial_range.stop →
      BufferSlice.map_async mc offset size = none) ∧
    ((BufferSlice.map_async mc offset size).isSome ↔ mc.initial_range = ⟨0, 0⟩) ∧
    (∀ mc' c, BufferSlice.map_async mc offset size = some (mc', c) →
      mc'.initial_range = ⟨offset, mapAsyncEnd mc offset size⟩ ∧
      c = BackendCall.buffer_map_async ⟨offset, mapAsyncEnd mc offset size⟩ ∧
      mc'.total_size = mc.total_size ∧ mc'.sub_ranges = mc.sub_ranges) := by
  refine ⟨?_, ?_, ?_⟩
  · intro hlt
    have : mc.initial_range ≠ ⟨0, 0⟩ := by
      intro he
      rw [he] at hlt
      exact absurd hlt (by simp)
    simp [BufferSlice.map_async, this]
  · by_cases h : mc.initial_range = ⟨0, 0⟩ <;> simp [BufferSlice.map_async, h]
  · intro mc' c h
    by_cases hinit : mc.initial_range = ⟨0, 0⟩
    · simp only [BufferSlice.map_async, if_pos hinit, Option.some.injEq,
        Prod.mk.injEq] at h
      obtain ⟨hmc, hc⟩ := h
      subst hmc
      exact ⟨rfl, hc.symm, rfl, rfl⟩
    · simp [BufferSlice.map_async, hinit] at h

/-- Witness for C5: an unmapped tracker of size 16, `map_async(4, None)`. -/
theorem map_async_spec_witness :
    ({ total_size := 16, initial_range := ⟨4, 16⟩,
       sub_ranges := [] } : MapContext).initial_range =
        ⟨4, mapAsyncEnd (MapContext.new 16) 4 none⟩ ∧
    BackendCall.buffer_map_async ⟨4, 16⟩ =
      BackendCall.buffer_map_async ⟨4, mapAsyncEnd (MapContext.new 16) 4 none⟩ ∧
    ({ total_size := 16, initial_range := ⟨4, 16⟩,
       sub_ranges := [] } : MapContext).total_size = (MapContext.new 16).total_size ∧
    ({ total_size := 16, initial_range := ⟨4, 16⟩,
       sub_ranges := [] } : MapContext).sub_ranges = (MapContext.new 16).sub_ranges :=
  (map_async_spec (MapContext.new 16) 4 none).2.2
    { total_size := 16, initial_range := ⟨4, 16⟩, sub_ranges := [] }
    (BackendCall.buffer_map_async ⟨4, 16⟩)
    (by decide)

/-! ### Claim C10 -/

/-- `RenderPass::set_index_buffer(buffer_slice)`: forwards the slice's
`(offset, size)` unchanged to the backend. -/
def RenderPass.set_index_buffer (slice : Nat × Option Nat) : BackendCall :=
  BackendCall.set_index_buffer slice.1 slice.2

/-- `RenderPass::set_vertex_buffer(slot, buffer_slice)`: forwards the slice's
`(offset, size)` unchanged to the backend. -/
def RenderPass.set_vertex_buffer (slot : Nat) (slice : Nat × Option Nat) : BackendCall :=
  BackendCall.set_vertex_buffer slot slice.1 slice.2

/-- C10: an empty half-open range `a..a` is normalized by `Buffer::slice` to
offset `a` with size `None` (a zero computed size becomes "no size"), and
every downstream consumer treats `None` as "rest of the buffer / mapped
range": `get_mapped_range` (via `add`) resolves the end to the outstanding
range's end, `map_async` maps `a..total_size` and forwards that full range to
the backend, and `set_index_buffer`/`set_vertex_buffer` forward the `None`
sentinel unchanged. -/
theorem empty_range_slice_spec (a slot total : Nat) (subs : List BufRange) :
    Buffer.slice (RBound.included a) (RBound.excluded a) = (a, none) ∧
    (∀ (mc : MapContext), mc.addEnd a none = mc.initial_range.stop) ∧
    BufferSlice.map_async
        ({ total_size := total, initial_range := ⟨0, 0⟩,
           sub_ranges := subs } : MapContext) a none =
      some ({ total_size := total, initial_range := ⟨a, total⟩, sub_ranges := subs },
        BackendCall.buffer_map_async ⟨a, total⟩) ∧
    RenderPass.set_index_buffer (Buffer.slice (RBound.included a) (RBound.excluded a)) =
      BackendCall.set_index_buffer a none ∧
    RenderPass.set_vertex_buffer slot
        (Buffer.slice (RBound.included a) (RBound.excluded a)) =
      BackendCall.set_vertex_buffer slot a none := by
  have hnorm : Buffer.slice (RBound.included a) (RBound.excluded a) = (a, none) := by
    simp [Buffer.slice, range_to_offset_size, bufferSizeNew]
  refine ⟨hnorm, fun mc => rfl, ?_, ?_, ?_⟩
  · simp [BufferSlice.map_async, mapAsyncEnd]
  · rw [hnorm]; rfl
  · rw [hnorm]; rfl

/-! ### Pass finalization, command buffers, resource destructors, swap chain -/

/-- `impl Drop for RenderPass`: the backend calls emitted when the pass goes
out of scope (Rust runs `drop` exactly once per value); the end-pass call is
guarded by `!thread::panicking()`. -/
def RenderPass.drop (panicking : Bool) : List BackendCall :=
  if panicking then [] else [BackendCall.command_encoder_end_render_pass]

/-- `impl Drop for ComputePass`: same shape as the render-pass destructor. -/
def ComputePass.drop (panicking : Bool) : List BackendCall :=
  if panicking then [] else [BackendCall.command_encoder_end_compute_pass]

/-- A command buffer wraps an optional backend handle
(`id: Option<CommandBufferId>`); handles are modelled as `Nat`. -/
structure CommandBuffer where
  id : Option Nat
deriving DecidableEq, Repr

/-- `CommandEncoder::finish`: consumes the encoder (Rust move semantics) and
wraps the backend `command_encoder_finish` result — here the abstract handle
`h` — in `Some`. -/
def CommandEncoder.finish (h : Nat) : CommandBuffer :=
  { id := some h }

/-- `impl Drop for CommandBuffer`: forwards `command_buffer_drop` only when
not panicking and the handle is still present. -/
def CommandBuffer.drop (cb : CommandBuffer) (panicking : Bool) : List BackendCall :=
  if panicking then
    []
  else
    match cb.id with
    | some _ => [BackendCall.command_buffer_drop]
    | none => []

/-- `Queue::submit`: takes each command buffer's handle out of it
(`comb.id.take().unwrap()`); `none` models the fatal `unwrap` on an
already-taken handle.  Returns the handles passed to the backend
`queue_submit` and the buffers as they are left afterwards. -/
def Queue.submit (cbs : List CommandBuffer) : Option (List Nat × List CommandBuffer) :=
  match cbs.mapM (·.id) with
  | some ids => some (ids, cbs.map fun _ => { id := none })
  | none => none

/-- `SwapChainStatus` (the backend acquire result; the `match` in
`get_current_frame` is exhaustive over exactly these five variants). -/
inductive SwapChainStatus where
  | good
  | suboptimal
  | timeout
  | outdated
  | lost
deriving DecidableEq, Repr

/-- `enum SwapChainError` from `src/lib.rs`. -/
inductive SwapChainError where
  | timeout
  | outdated
  | lost
  | outOfMemory
deriving DecidableEq, Repr

/-- A texture wrapper: backend handle plus the `owned` flag. -/
structure Texture where
  id : Nat
  owned : Bool
deriving DecidableEq, Repr

/-- A texture-view wrapper: backend handle plus the `owned` flag. -/
structure TextureView where
  id : Nat
  owned : Bool
deriving DecidableEq, Repr

/-- `SwapChainTexture`: the view wrapping the acquired swap-chain image. -/
structure SwapChainTexture where
  view : TextureView
deriving DecidableEq, Repr

/-- `SwapChainFrame`: the successful result of `get_current_frame`. -/
structure SwapChainFrame where
  output : SwapChainTexture
  suboptimal : Bool
deriving DecidableEq, Repr

/-- `impl Drop for Texture`: forwards `texture_drop` iff owning and not
panicking. -/
def Texture.drop (t : Texture) (panicking : Bool) : List BackendCall :=
  if t.owned && !panicking then [BackendCall.texture_drop] else []

/-- `impl Drop for TextureView`: forwards `texture_view_drop` iff owning and
not panicking. -/
def TextureView.drop (tv : TextureView) (panicking : Bool) : List BackendCall :=
  if tv.owned && !panicking then [BackendCall.texture_view_drop] else []

/-- `impl Drop for SwapChainTexture`: presents the image via
`swap_chain_present` unless panicking. -/
def SwapChainTexture.drop (panicking : Bool) : List BackendCall :=
  if !panicking then [BackendCall.swap_chain_present] else []

/-- `SwapChain::get_current_frame`: wraps the backend view id (when present)
in a non-owning `TextureView`, then maps the status; `output.unwrap()` on
`Good`/`Suboptimal` is fatal (`none`) when the backend supplied no view. -/
def SwapChain.get_current_frame (view_id : Option Nat) (status : SwapChainStatus) :
    Option (Except SwapChainError SwapChainFrame) :=
  let output := view_id.map fun id => SwapChainTexture.mk ⟨id, false⟩
  match status with
  | .good => output.map fun o => Except.ok ⟨o, false⟩
  | .suboptimal => output.map fun o => Except.ok ⟨o, true⟩
  | .timeout => some (Except.error SwapChainError.timeout)
  | .outdated => some (Except.error SwapChainError.outdated)
  | .lost => some (Except.error SwapChainError.lost)

/-! ### Claim C6 -/

/-- C6 counterexample: a `RenderPass` dropped while the thread is panicking
forwards zero end-pass calls, not exactly one — the claim's "exactly one
end-pass call regardless of how termination is triggered" fails when the
scope exit is a panic unwind. -/
theorem pass_drop_panicking_counterexample :
    ¬ ((RenderPass.drop true).count BackendCall.command_encoder_end_render_pass = 1) := by
  decide

/-- C6 (amended): when a `RenderPass`/`ComputePass` goes out of scope with the
thread not panicking, exactly one corresponding end-pass call is forwarded to
the parent encoder (and no end-pass call of the other kind); during a panic
unwind no end-pass call is forwarded. -/
theorem pass_drop_end_count (panicking : Bool) :
    (RenderPass.drop panicking).count BackendCall.command_encoder_end_render_pass
        = (if panicking then 0 else 1) ∧
    (ComputePass.drop panicking).count BackendCall.command_encoder_end_compute_pass
        = (if panicking then 0 else 1) ∧
    (RenderPass.drop panicking).count BackendCall.command_encoder_end_compute_pass = 0 ∧
    (ComputePass.drop panicking).count BackendCall.command_encoder_end_render_pass = 0 := by
  cases panicking <;> decide

/-! ### Claim C7 -/

/-- C7: `finish` consumes the encoder (enforced by Rust move semantics; here,
one call yields one `CommandBuffer` wrapping `Some` handle); `Queue::submit`
takes every submitted buffer's handle out (leaving `None`), so a second submit
of the same buffer aborts fatally on `unwrap` and the buffer's destructor no
longer forwards a backend `command_buffer_drop`. -/
theorem command_buffer_single_submit (h : Nat) (panicking : Bool) :
    (CommandEncoder.finish h).id = some h ∧
    Queue.submit [CommandEncoder.finish h] = some ([h], [{ id := none }]) ∧
    Queue.submit [({ id := none } : CommandBuffer)] = none ∧
    CommandBuffer.drop { id := none } panicking = [] ∧
    (∀ cbs ids cbs', Queue.submit cbs = some (ids, cbs') →
      ∀ cb ∈ cbs', cb.id = none) := by
  refine ⟨rfl, rfl, rfl, ?_, ?_⟩
  · cases panicking <;> rfl
  · intro cbs ids cbs' hsub cb hcb
    simp only [Queue.submit] at hsub
    cases hm : cbs.mapM (·.id) with
    | none => rw [hm] at hsub; exact Option.noConfusion hsub
    | some ids0 =>
      rw [hm] at hsub
      simp only [Option.some.injEq, Prod.mk.injEq] at hsub
      obtain ⟨-, hcbs⟩ := hsub
      subst hcbs
      obtain ⟨cb0, -, hcb0⟩ := List.mem_map.mp hcb
      rw [← hcb0]

/-- Witness for C7: submitting the buffer produced by `finish 5` leaves a
buffer whose handle is gone. -/
theorem command_buffer_single_submit_witness :
    ({ id := none } : CommandBuffer).id = none :=
  (command_buffer_single_submit 5 false).2.2.2.2
    [CommandEncoder.finish 5] [5] [{ id := none }] rfl
    { id := none } (by simp)

/-! ### Claim C8 -/

/-- C8: `get_current_frame` yields `Ok` frames wrapping a non-owning view with
`suboptimal = false` for `Good` and `true` for `Suboptimal`, returns the typed
errors `Timeout`/`Outdated`/`Lost` for the corresponding statuses, and every
error it can return lies in `{Timeout, Outdated, Lost, OutOfMemory}`. -/
theorem get_current_frame_spec (id : Nat) (view_id : Option Nat) :
    SwapChain.get_current_frame (some id) SwapChainStatus.good =
      some (Except.ok ⟨⟨⟨id, false⟩⟩, false⟩) ∧
    SwapChain.get_current_frame (some id) SwapChainStatus.suboptimal =
      some (Except.ok ⟨⟨⟨id, false⟩⟩, true⟩) ∧
    SwapChain.get_current_frame view_id SwapChainStatus.timeout =
      some (Except.error SwapChainError.timeout) ∧
    SwapChain.get_current_frame view_id SwapChainStatus.outdated =
      some (Except.error SwapChainError.outdated) ∧
    SwapChain.get_current_frame view_id SwapChainStatus.lost =
      some (Except.error SwapChainError.lost) ∧
    (∀ status fr, SwapChain.get_current_frame view_id status = some (Except.ok fr) →
      fr.output.view.owned = false) ∧
    (∀ status e, SwapChain.get_current_frame view_id status = some (Except.error e) →
      e = SwapChainError.timeout ∨ e = SwapChainError.outdated ∨
      e = SwapChainError.lost ∨ e = SwapChainError.outOfMemory) := by
  refine ⟨rfl, rfl, rfl, rfl, rfl, ?_, ?_⟩
  · intro status fr hfr
    cases status <;> cases view_id <;>
      simp only [SwapChain.get_current_frame, Option.map_none', Option.map_some'] at hfr <;>
      first
        | exact Option.noConfusion hfr
        | (injection hfr with hfr1; injection hfr1 with hfr2; rw [← hfr2])
        | (injection hfr with hfr1; exact Except.noConfusion hfr1)
  · intro status e he
    cases status <;> cases view_id <;>
      simp only [SwapChain.get_current_frame, Option.map_none', Option.map_some'] at he <;>
      first
        | exact Option.noConfusion he
        | (injection he with he1; exact Except.noConfusion he1)
        | (injection he with he1; injection he1 with he2; simp [← he2])

/-- Witness for C8: the error returned for status `Lost` is one of the four
swap-chain error variants. -/
theorem get_current_frame_spec_witness :
    SwapChainError.lost = SwapChainError.timeout ∨
    SwapChainError.lost = SwapChainError.outdated ∨
    SwapChainError.lost = SwapChainError.lost ∨
    SwapChainError.lost = SwapChainError.outOfMemory :=
  (get_current_frame_spec 0 none).2.2.2.2.2.2 SwapChainStatus.lost SwapChainError.lost rfl

/-! ### Claim C9 -/

/-- C9: a resource destructor forwards the matching backend drop exactly once
when the wrapper is owning and the thread is not panicking, and forwards
nothing when the wrapper is non-owning (e.g. a swap-chain view) or the thread
is unwinding; dropping a `SwapChainTexture` instead forwards presentation
under the same not-panicking condition. -/
theorem resource_drop_spec (t : Texture) (tv : TextureView) (panicking : Bool) :
    (t.owned = true → panicking = false → t.drop panicking = [BackendCall.texture_drop]) ∧
    (t.owned = false → t.drop panicking = []) ∧
    (panicking = true → t.drop panicking = []) ∧
    (tv.owned = true → panicking = false →
      tv.drop panicking = [BackendCall.texture_view_drop]) ∧
    (tv.owned = false → tv.drop panicking = []) ∧
    (panicking = true → tv.drop panicking = []) ∧
    (panicking = false →
      SwapChainTexture.drop panicking = [BackendCall.swap_chain_present]) ∧
    (panicking = true → SwapChainTexture.drop panicking = []) := by
  obtain ⟨tid, towned⟩ := t
  obtain ⟨tvid, tvowned⟩ := tv
  cases towned <;> cases tvowned <;> cases panicking <;>
    simp [Texture.drop, TextureView.drop, SwapChainTexture.drop]

/-- Witness for C9: an owning texture dropped with the thread not panicking
forwards exactly the backend `texture_drop`. -/
theorem resource_drop_spec_witness :
    Texture.drop ⟨7, true⟩ false = [BackendCall.texture_drop] :=
  (resource_drop_spec ⟨7, true⟩ ⟨0, true⟩ false).1 rfl rfl

/-- Witness for C2: unmapping a buffer with one still-open view emits no
backend call. -/
theorem buffer_unmap_spec_witness :
    (Buffer.unmap
      { total_size := 4, initial_range := ⟨0, 4⟩, sub_ranges := [⟨0, 4⟩] }).2 = [] :=
  (buffer_unmap_spec
    { total_size := 4, initial_range := ⟨0, 4⟩, sub_ranges := [⟨0, 4⟩] }).2.2 rfl
